import Mathlib

/-! Verification of the Resume Analyser scoring core
(`src/app/api/analyze/route.ts`), shallow-embedded over `List Char` text
and exact rational arithmetic.  JavaScript numbers are modelled by `ℚ`
(and `ℤ` for rounded scores), strings by `List Char`, and
`null`/`undefined` by `Option`. -/

namespace ResumeAnalyser

/-- JavaScript `Math.round`: round half toward positive infinity. -/
def jsRound (q : ℚ) : ℤ := ⌊q + 1/2⌋

/-- ASCII word characters, JavaScript regex `\w`. -/
def isWordChar (c : Char) : Bool := c.isAlphanum || c == '_'

/-- JavaScript whitespace characters (regex `\s`, ASCII part). -/
def isJsSpace (c : Char) : Bool :=
  c == ' ' || c == '\t' || c == '\n' || c == '\r' || c == '\x0b' || c == '\x0c'

/-- JavaScript `String.prototype.trim`. -/
def trimChars (s : List Char) : List Char :=
  ((s.dropWhile isJsSpace).reverse.dropWhile isJsSpace).reverse

/-- Case-insensitive prefix test: does `s` start with the (lower-case
literal) pattern `pat`? -/
def lowerStarts : List Char → List Char → Bool
  | [], _ => true
  | _ :: _, [] => false
  | p :: ps, c :: cs => (c.toLower == p) && lowerStarts ps cs

/-- One pass of JavaScript `String.prototype.replace` with a global
case-insensitive literal pattern: leftmost, non-overlapping.  The numeric
argument counts matched pattern characters still to be consumed. -/
def replaceGo (pat rep : List Char) : ℕ → List Char → List Char
  | _ + 1, [] => []
  | n + 1, _ :: cs => replaceGo pat rep n cs
  | 0, [] => []
  | 0, c :: cs =>
    if lowerStarts pat (c :: cs) then rep ++ replaceGo pat rep (pat.length - 1) cs
    else c :: replaceGo pat rep 0 cs

def replaceCI (pat rep : List Char) (s : List Char) : List Char := replaceGo pat rep 0 s

/-- The technology substitutions of `normalizeTech`, in source order. -/
def techSubs : List (List Char × List Char) :=
  [("c++".data, "cplusplus".data),
   ("c#".data, "csharp".data),
   (".net".data, "dotnet".data),
   ("node.js".data, "nodejs".data),
   ("react.js".data, "react".data)]

/-- `normalizeTech` from the source: apply the five substitutions in order. -/
def normalizeTech (text : List Char) : List Char :=
  techSubs.foldl (fun t pr => replaceCI pr.1 pr.2 t) text

/-- Lower-case ASCII alphanumeric characters: the characters that survive
the split on `[^a-z0-9]+` (the text is lower-cased before the split). -/
def isTokenChar (c : Char) : Bool := ('a' ≤ c && c ≤ 'z') || ('0' ≤ c && c ≤ '9')

/-- Split into maximal runs of token characters.  JavaScript
`split(/[^a-z0-9]+/)` additionally yields empty pieces at the two ends;
those are removed by the `length > 2` filter of `tokenize` in the source,
so they are dropped here directly. -/
def splitToksGo (cur : List Char) : List Char → List (List Char)
  | [] => if cur = [] then [] else [cur.reverse]
  | c :: cs =>
    if isTokenChar c then splitToksGo (c :: cur) cs
    else if cur = [] then splitToksGo [] cs
    else cur.reverse :: splitToksGo [] cs

def splitTokens (s : List Char) : List (List Char) := splitToksGo [] s

/-- The `STOPWORDS` set of the source, in source order (the duplicated
entry "ability" is kept; only membership matters). -/
def STOPWORDS : List (List Char) :=
  (["the", "and", "for", "with", "that", "this", "from", "your", "you", "our",
    "are", "will", "can", "able", "ability", "work", "works", "working", "role",
    "responsible", "responsibilities", "requirements", "qualification",
    "qualifications", "skills", "skill", "years", "year", "experience",
    "including", "strong", "good", "great", "excellent", "knowledge",
    "understanding", "proficient", "preferred", "plus", "bonus", "day", "team",
    "teams", "collaborate", "collaboration", "develop", "design", "build",
    "building", "deliver", "delivery", "ensure", "using", "use", "used",
    "within", "across", "multiple", "ability", "self", "starter", "must",
    "nice"] : List String).map String.data

/-- `tokenize`: fold technology names, lower-case, split on non-alphanumeric
runs, keep tokens of length > 2 that are not stopwords.  (The source's
`.map(word => word.trim())` is the identity on the split pieces.) -/
def tokenize (text : List Char) : List (List Char) :=
  (splitTokens ((normalizeTech text).map Char.toLower)).filter
    (fun w => decide (2 < w.length) && !(STOPWORDS.contains w))

/-- JavaScript `Array.from(new Set(xs))`: deduplicate, keeping first
occurrences in order. -/
def jsDedupGo (seen : List (List Char)) : List (List Char) → List (List Char)
  | [] => []
  | x :: xs => if x ∈ seen then jsDedupGo seen xs else x :: jsDedupGo (x :: seen) xs

def jsDedup (xs : List (List Char)) : List (List Char) := jsDedupGo [] xs

/-- Alternatives of `reqPattern`, each matched with a word boundary on both
sides, case-insensitively, anywhere in the line. -/
def reqPhrases : List (List Char) :=
  ["requirements".data, "qualifications".data, "must have".data,
   "what you bring".data, "skills".data]

/-- Alternatives of `respPattern`; the character class `day[- ]to[- ]day`
is expanded into its four concrete phrases. -/
def respPhrases : List (List Char) :=
  ["responsibilities".data,
   "what you".data ++ '\'' :: "ll do".data,
   "what you will do".data, "role".data,
   "day-to-day".data, "day to-day".data, "day-to day".data, "day to day".data]

/-- Alternatives of `prefPattern`. -/
def prefPhrases : List (List Char) :=
  ["nice to have".data, "preferred".data, "bonus".data, "plus".data,
   "good to have".data]

/-- Does `s` start with phrase `pat` (case-insensitively) followed by a
word boundary?  Every phrase ends in a word character, so the `\b` after
the phrase means end-of-string or a non-word character. -/
def startsWordCI : List Char → List Char → Bool
  | [], [] => true
  | [], c :: _ => !isWordChar c
  | _ :: _, [] => false
  | p :: ps, c :: cs => (c.toLower == p) && startsWordCI ps cs

/-- Scan for any of the phrases occurring with a word boundary before it;
`prevW` records whether the previous character was a word character (every
phrase begins with a word character, so `\b` before it means the previous
character, if any, is a non-word character). -/
def wordScan (phrases : List (List Char)) : Bool → List Char → Bool
  | _, [] => false
  | prevW, c :: cs =>
    (!prevW && phrases.any (fun p => startsWordCI p (c :: cs))) ||
      wordScan phrases (isWordChar c) cs

/-- JavaScript `pattern.test(line)` for the unanchored `\b(...)\b/i`
heading patterns. -/
def testPat (phrases : List (List Char)) (line : List Char) : Bool :=
  wordScan phrases false line

/-- JavaScript `text.split(/\n+/)`.  Mode `true` means the scan is inside
a newline run that has already emitted its piece boundary. -/
def splitNlGo : Bool → List Char → List Char → List (List Char)
  | false, acc, [] => [acc.reverse]
  | false, acc, c :: cs =>
    if c == '\n' then acc.reverse :: splitNlGo true [] cs
    else splitNlGo false (c :: acc) cs
  | true, _, [] => [[]]
  | true, _, c :: cs =>
    if c == '\n' then splitNlGo true [] cs else splitNlGo false [c] cs

def splitNl (s : List Char) : List (List Char) := splitNlGo false [] s

structure Sections where
  requirements : List Char
  responsibilities : List Char
  preferred : List Char
  other : List Char
deriving DecidableEq

inductive SectionKey where
  | requirements
  | responsibilities
  | preferred
  | other
deriving DecidableEq

/-- `sections[current] += txt`. -/
def appendCurrent (k : SectionKey) (txt : List Char) (s : Sections) : Sections :=
  match k with
  | .requirements => { s with requirements := s.requirements ++ txt }
  | .responsibilities => { s with responsibilities := s.responsibilities ++ txt }
  | .preferred => { s with preferred := s.preferred ++ txt }
  | .other => { s with other := s.other ++ txt }

/-- The body of the `for` loop of `splitJDSections`, one line at a time:
skip blank lines, test the three heading patterns in precedence order
(switching the cursor and consuming the line on a match), otherwise append
a space and the trimmed line to the current section. -/
def processLine (st : SectionKey × Sections) (line : List Char) : SectionKey × Sections :=
  let trimmed := trimChars line
  if trimmed = [] then st
  else if testPat reqPhrases trimmed then (.requirements, st.2)
  else if testPat respPhrases trimmed then (.responsibilities, st.2)
  else if testPat prefPhrases trimmed then (.preferred, st.2)
  else (st.1, appendCurrent st.1 (' ' :: trimmed) st.2)

/-- `splitJDSections`: fold the loop body over the lines, starting from
empty sections with the cursor on `other`. -/
def splitJDSections (jdText : List Char) : Sections :=
  ((splitNl jdText).foldl processLine (.other, ⟨[], [], [], []⟩)).2

structure ScorePart where
  matched : ℕ
  total : ℕ
  ratio : ℚ
  weight : ℚ
deriving DecidableEq

structure ScoreBreakdown where
  requirements : ScorePart
  responsibilities : ScorePart
  preferred : ScorePart
  other : ScorePart
deriving DecidableEq

structure CoverageResult where
  matched : ℕ
  total : ℕ
  ratio : ℚ
deriving DecidableEq

/-- `coverageScore`: deduplicated section tokens, count of those present in
the resume token set, and their ratio (the `reduce` of the source is the
fold below). -/
def coverageScore (sectionText : List Char) (cvTokens : List (List Char)) : CoverageResult :=
  let tokens := jsDedup (tokenize sectionText)
  if tokens.length = 0 then ⟨0, 0, 0⟩
  else
    let matched := tokens.foldl (fun count token => if token ∈ cvTokens then count + 1 else count) 0
    ⟨matched, tokens.length, (matched : ℚ) / (tokens.length : ℚ)⟩

/-- `Object.entries(breakdown)` in key order, filtered to the active
(`total > 0`) parts. -/
def activeParts (bd : ScoreBreakdown) : List ScorePart :=
  [bd.requirements, bd.responsibilities, bd.preferred, bd.other].filter
    (fun p => decide (0 < p.total))

structure MatchResult where
  score : ℤ
  breakdown : ScoreBreakdown
deriving DecidableEq

/-- A `ScorePart` as the source's spread `{...coverage, weight}` builds it. -/
def mkPart (c : CoverageResult) (w : ℚ) : ScorePart := ⟨c.matched, c.total, c.ratio, w⟩

/-- The zeroed `ScorePart` of the fallback branch. -/
def zeroPart : ScorePart := ⟨0, 0, 0, 0⟩

/-- The breakdown of the non-fallback path: the four per-section coverage
scores with the fixed base weights 0.6 / 0.25 / 0.15 / 0.1. -/
def baseBreakdown (cvTokens : List (List Char)) (sections : Sections) : ScoreBreakdown :=
  ⟨mkPart (coverageScore sections.requirements cvTokens) 0.6,
   mkPart (coverageScore sections.responsibilities cvTokens) 0.25,
   mkPart (coverageScore sections.preferred cvTokens) 0.15,
   mkPart (coverageScore sections.other cvTokens) 0.1⟩

/-- The two `reduce` folds of the non-fallback branch: sum the active
weights, then sum ratio × renormalized weight (with the source's guard
against a non-positive weight sum). -/
def weightedFold (active : List ScorePart) : ℚ :=
  let weightSum : ℚ := active.foldl (fun sum p => sum + p.weight) 0
  active.foldl
    (fun sum p => sum + p.ratio * (if weightSum > 0 then p.weight / weightSum else 0)) 0

/-- `computeMatchScore`, the Match Score Aggregator. -/
def computeMatchScore (cvText jdText : List Char) : MatchResult :=
  let cvTokens := jsDedup (tokenize cvText)
  let breakdown := baseBreakdown cvTokens (splitJDSections jdText)
  let active := activeParts breakdown
  if active.length = 0 then
    let fallback := coverageScore jdText cvTokens
    ⟨jsRound (fallback.ratio * 100), ⟨mkPart fallback 1, zeroPart, zeroPart, zeroPart⟩⟩
  else ⟨jsRound (weightedFold active * 100), breakdown⟩

/-- Modelled from the spec (claim C1): the match score exactly as the spec
words it — per-section coverage with the fixed base weights, weights
renormalized over the active (total > 0) sections,
`round(100 × Σ ratio_i × (weight_i / Σ active weights))`, and the
undivided-block fallback `round(100 × ratio)` when no section is active. -/
def specMatchScore (cvText jdText : List Char) : ℤ :=
  let cvTokens := jsDedup (tokenize cvText)
  let sections := splitJDSections jdText
  let parts : List (CoverageResult × ℚ) :=
    [(coverageScore sections.requirements cvTokens, 0.6),
     (coverageScore sections.responsibilities cvTokens, 0.25),
     (coverageScore sections.preferred cvTokens, 0.15),
     (coverageScore sections.other cvTokens, 0.1)]
  let act := parts.filter (fun pr => decide (0 < pr.1.total))
  if act = [] then jsRound (100 * (coverageScore jdText cvTokens).ratio)
  else jsRound (100 * (act.map (fun pr => pr.1.ratio * (pr.2 / (act.map Prod.snd).sum))).sum)

/-- The renormalized sum of the active-section weights of a breakdown, as
the spec's invariant states it: each active weight divided by the sum of
the active weights, summed. -/
def renormActiveWeightSum (bd : ScoreBreakdown) : ℚ :=
  let act := activeParts bd
  (act.map (fun p => p.weight / (act.map ScorePart.weight).sum)).sum

structure SalaryRange where
  min : ℚ
  max : ℚ
deriving DecidableEq

/-- Value of a digit string under the usual decimal reading. -/
def digitsVal (ds : List Char) : ℕ :=
  ds.foldl (fun n c => 10 * n + (c.toNat - '0'.toNat)) 0

/-- JavaScript `Number` on a non-empty string of digits and dots: `NaN`
(that is, `none`) when there is more than one dot or no digit at all. -/
def jsNumberOfRaw (raw : List Char) : Option ℚ :=
  if raw.count '.' ≤ 1 ∧ raw.any Char.isDigit then
    some ((digitsVal (raw.takeWhile (fun c => c ≠ '.')) : ℚ) +
      (digitsVal ((raw.dropWhile (fun c => c ≠ '.')).drop 1) : ℚ) /
        (10 : ℚ) ^ ((raw.dropWhile (fun c => c ≠ '.')).drop 1).length)
  else none

/-- `parseSalary`: a missing or (falsy) empty input gives `null`; otherwise
strip everything but digits and dots and apply JavaScript `Number`. -/
def parseSalary (input : Option (List Char)) : Option ℚ :=
  match input with
  | none => none
  | some s =>
    if s = [] then none
    else
      let raw := s.filter (fun c => c.isDigit || c == '.')
      if raw = [] then none else jsNumberOfRaw raw

/-- `normalizeRange`: `min ?? max` and `max ?? min`, then order the two
values with `Math.min` / `Math.max`. -/
def normalizeRange (mn mx : Option ℚ) : Option SalaryRange :=
  match mn, mx with
  | none, none => none
  | some a, some b => some ⟨min a b, max a b⟩
  | some a, none => some ⟨min a a, max a a⟩
  | none, some b => some ⟨min b b, max b b⟩

structure CompensationResult where
  score : Option ℤ
  notes : List (List Char)
deriving DecidableEq

/-- `computeCompensationFit`, the Compensation Fit Scorer. -/
def computeCompensationFit (candidate role : Option SalaryRange) : CompensationResult :=
  match candidate, role with
  | none, _ => ⟨none, ["Compensation info missing for one or both inputs.".data]⟩
  | _, none => ⟨none, ["Compensation info missing for one or both inputs.".data]⟩
  | some c, some r =>
    let span : ℚ := max 1 (r.max - r.min)
    let overlap : ℚ := max 0 (min c.max r.max - max c.min r.min)
    let score : ℤ :=
      if overlap > 0 then jsRound (overlap / span * 100)
      else
        let gap := if c.min > r.max then c.min - r.max else r.min - c.max
        max 0 (jsRound (100 - gap / span * 100))
    let notes :=
      (if overlap > 0 then ["Salary expectations overlap with the JD range.".data]
       else ["Salary expectations do not overlap with the JD range.".data]) ++
      (if c.min > r.max then
        ["Candidate expectations sit above the role".data ++ '\'' :: "s stated range.".data]
       else []) ++
      (if c.max < r.min then
        ["Candidate expectations sit below the role".data ++ '\'' :: "s stated range.".data]
       else [])
    ⟨some (max 0 (min 100 score)), notes⟩

/-- `normalizeWeight`: a non-finite value (`none`) or one outside the open
interval (0, 1) falls back to the default. -/
def normalizeWeight (value : Option ℚ) (fallback : ℚ) : ℚ :=
  match value with
  | none => fallback
  | some v => if v ≤ 0 ∨ v ≥ 1 then fallback else v

/-- `computeOverallScore`; `envSkillWeight` models
`Number(process.env.SKILL_WEIGHT ?? "0.8")`, with `none` for a non-finite
parse. -/
def computeOverallScore (envSkillWeight : Option ℚ)
    (matchScore compensationFit : Option ℚ) : Option ℚ :=
  match matchScore with
  | none => none
  | some m =>
    match compensationFit with
    | none => some m
    | some c =>
      let skillWeight := normalizeWeight envSkillWeight 0.8
      let compWeight := 1 - skillWeight
      some ((jsRound (m * skillWeight + c * compWeight) : ℤ) : ℚ)

/-- Modelled from the spec (claim C4): the effective skill weight — the
configured value when it is a finite number strictly between 0 and 1,
otherwise the default 0.8. -/
def specSkillWeight (envSkillWeight : Option ℚ) : ℚ :=
  match envSkillWeight with
  | some v => if 0 < v ∧ v < 1 then v else 0.8
  | none => 0.8

def MAX_CHARS : ℕ := 12000

/-- Collapse each whitespace run to a single space, JavaScript
`replace(/\s+/g, " ")`.  Mode `true` means the scan is inside a run whose
single space has already been emitted. -/
def collapseWsGo : Bool → List Char → List Char
  | _, [] => []
  | inRun, c :: cs =>
    if isJsSpace c then
      if inRun then collapseWsGo true cs else ' ' :: collapseWsGo true cs
    else c :: collapseWsGo false cs

def collapseWs (s : List Char) : List Char := collapseWsGo false s

/-- `clampText`: collapse whitespace, trim, and truncate to `MAX_CHARS`
characters plus an ellipsis when too long. -/
def clampText (input : List Char) : List Char :=
  let trimmed := trimChars (collapseWs input)
  if trimmed.length ≤ MAX_CHARS then trimmed
  else trimmed.take MAX_CHARS ++ "...".data

/-- Text selection of the POST handler for one side: a non-blank pasted
text wins, otherwise the (externally extracted) file text, otherwise the
empty string; every non-empty selection passes through `clampText` before
any scoring. -/
def selectText (textInput : List Char) (fileText : Option (List Char)) : List Char :=
  if trimChars textInput ≠ [] then clampText textInput
  else
    match fileText with
    | some t => clampText t
    | none => []

/-- Stable insertion of `x` into a sorted list: `x` stays before every
element it ties with, matching JavaScript's stable `Array.prototype.sort`. -/
def insertLe (le : α → α → Bool) (x : α) : List α → List α
  | [] => [x]
  | y :: ys => if le x y then x :: y :: ys else y :: insertLe le x ys

/-- Stable insertion sort. -/
def sortLe (le : α → α → Bool) : List α → List α
  | [] => []
  | x :: xs => insertLe le x (sortLe le xs)

/-- The keyword comparator of `extractKeywordStats`
(`b[1]-a[1] || b[0].length-a[0].length`): frequency descending, then token
length descending, read as a total "comes no later than" relation. -/
def keywordLe (a b : List Char × ℕ) : Bool :=
  decide (b.2 < a.2) || (decide (b.2 = a.2) && decide (b.1.length ≤ a.1.length))

structure KeywordStats where
  keywordMatches : List (List Char)
  missingKeywords : List (List Char)
deriving DecidableEq

/-- `extractKeywordStats`: frequency map in first-occurrence order, stable
sort by the comparator, then split into matched and missing (the source
builds both arrays in one pass over `sortedTokens`, which is the same as
filtering it twice) and keep the first 30 of each. -/
def extractKeywordStats (jdText cvText : List Char) : KeywordStats :=
  let jdTokens := tokenize jdText
  let cvTokens := jsDedup (tokenize cvText)
  let entries := (jsDedup jdTokens).map (fun t => (t, jdTokens.count t))
  let sortedTokens := (sortLe keywordLe entries).map Prod.fst
  ⟨(sortedTokens.filter (fun t => decide (t ∈ cvTokens))).take 30,
   (sortedTokens.filter (fun t => !decide (t ∈ cvTokens))).take 30⟩

/-- The fields of the JSON object the LLM collaborator may return that the
POST handler reads; `none` models `null`, `undefined`, or not-an-array. -/
structure LLMOut where
  matchScore : Option ℚ
  scoreBreakdown : Option ScoreBreakdown
  keywordMatches : Option (List (List Char))
  missingKeywords : Option (List (List Char))
  compensationFit : Option ℚ
  compensationNotes : Option (List (List Char))

/-- The analysis object as serialized in the POST response. -/
structure Analysis where
  matchScore : ℤ
  scoreBreakdown : ScoreBreakdown
  keywordMatches : List (List Char)
  missingKeywords : List (List Char)
  compensationFit : Option ℚ
  compensationNotes : List (List Char)
  overallScore : Option ℚ

/-- The tail of the POST handler: whatever the LLM returned, the
deterministic core overwrites `matchScore` and `scoreBreakdown`, fills the
keyword lists when the LLM's are missing or empty, derives
`compensationFit` when absent, and computes `overallScore`. -/
def finalizeAnalysis (envSkillWeight : Option ℚ) (cvText jdText : List Char)
    (compensation : CompensationResult) (llm : LLMOut) : Analysis :=
  let matchR := computeMatchScore cvText jdText
  let keywordStats := extractKeywordStats jdText cvText
  let keywordMatches :=
    match llm.keywordMatches with
    | some (x :: xs) => x :: xs
    | _ => keywordStats.keywordMatches
  let missingKeywords :=
    match llm.missingKeywords with
    | some (x :: xs) => x :: xs
    | _ => keywordStats.missingKeywords
  let compFit : Option ℚ :=
    match llm.compensationFit with
    | some v => some v
    | none => compensation.score.map (fun z => (z : ℚ))
  let existingNotes :=
    match llm.compensationNotes with
    | some ns => ns
    | none => []
  let compNotes := if existingNotes.length = 0 then compensation.notes else existingNotes
  let overall := computeOverallScore envSkillWeight (some (matchR.score : ℚ)) compFit
  ⟨matchR.score, matchR.breakdown, keywordMatches, missingKeywords, compFit, compNotes, overall⟩

/-! ### Rounding, fold and deduplication lemmas -/

theorem jsRound_intCast (z : ℤ) : jsRound (z : ℚ) = z := by
  unfold jsRound
  rw [add_comm, Int.floor_add_int]
  norm_num

theorem foldl_add_map {α : Type _} (f : α → ℚ) (l : List α) :
    ∀ init : ℚ, l.foldl (fun s p => s + f p) init = init + (l.map f).sum := by
  induction l with
  | nil => intro init; simp
  | cons x xs ih => intro init; simp [ih, add_assoc]

theorem sum_map_div {α : Type _} (f : α → ℚ) (W : ℚ) (l : List α) :
    (l.map (fun p => f p / W)).sum = (l.map f).sum / W := by
  induction l with
  | nil => simp
  | cons x xs ih => simp [ih, add_div]

theorem foldl_count_all (S : List (List Char)) (l : List (List Char))
    (h : ∀ t ∈ l, t ∈ S) :
    ∀ init : ℕ, l.foldl (fun c t => if t ∈ S then c + 1 else c) init = init + l.length := by
  induction l with
  | nil => intro init; simp
  | cons x xs ih =>
    intro init
    have hx : x ∈ S := h x (by simp)
    have := ih (fun t ht => h t (by simp [ht])) (init + 1)
    simp only [List.foldl_cons, if_pos hx, this, List.length_cons]
    omega

theorem mem_jsDedupGo {t : List Char} :
    ∀ (seen xs : List (List Char)), t ∈ jsDedupGo seen xs ↔ t ∈ xs ∧ t ∉ seen := by
  intro seen xs
  induction xs generalizing seen with
  | nil => simp [jsDedupGo]
  | cons x xs ih =>
    by_cases hx : x ∈ seen
    · simp only [jsDedupGo, if_pos hx, ih, List.mem_cons]
      constructor
      · rintro ⟨h1, h2⟩
        exact ⟨Or.inr h1, h2⟩
      · rintro ⟨h1 | h1, h2⟩
        · cases h1
          exact absurd hx h2
        · exact ⟨h1, h2⟩
    · simp only [jsDedupGo, if_neg hx, List.mem_cons, ih]
      constructor
      · rintro (rfl | ⟨h1, h2⟩)
        · exact ⟨Or.inl rfl, hx⟩
        · exact ⟨Or.inr h1, fun hs => h2 (Or.inr hs)⟩
      · rintro ⟨rfl | h1, h2⟩
        · exact Or.inl rfl
        · by_cases hex : t = x
          · exact Or.inl hex
          · exact Or.inr ⟨h1, fun hs => by
              rcases hs with h | h
              · exact hex h
              · exact h2 h⟩

theorem mem_jsDedup {t : List Char} (xs : List (List Char)) : t ∈ jsDedup xs ↔ t ∈ xs := by
  simp [jsDedup, mem_jsDedupGo]

theorem jsDedup_ne_nil {xs : List (List Char)} (h : xs ≠ []) : jsDedup xs ≠ [] := by
  cases xs with
  | nil => exact absurd rfl h
  | cons x xs => simp [jsDedup, jsDedupGo]

/-! ### Coverage scorer lemmas -/

theorem coverageScore_total_pos {sectionText : List Char} {cvT : List (List Char)}
    (h : tokenize sectionText ≠ []) : 0 < (coverageScore sectionText cvT).total := by
  have hne : jsDedup (tokenize sectionText) ≠ [] := jsDedup_ne_nil h
  have h0 : ¬ (jsDedup (tokenize sectionText)).length = 0 :=
    fun hc => hne (List.length_eq_zero.mp hc)
  simp only [coverageScore, if_neg h0]
  omega

theorem coverageScore_ratio_one {sectionText : List Char} {cvT : List (List Char)}
    (hsub : ∀ t ∈ tokenize sectionText, t ∈ cvT)
    (hpos : 0 < (coverageScore sectionText cvT).total) :
    (coverageScore sectionText cvT).ratio = 1 := by
  by_cases h0 : (jsDedup (tokenize sectionText)).length = 0
  · simp only [coverageScore, if_pos h0] at hpos
    exact absurd hpos (by omega)
  · have hall : ∀ t ∈ jsDedup (tokenize sectionText), t ∈ cvT :=
      fun t ht => hsub t ((mem_jsDedup _).mp ht)
    have hcount := foldl_count_all cvT (jsDedup (tokenize sectionText)) hall 0
    simp only [coverageScore, if_neg h0, hcount, Nat.zero_add]
    rw [div_self]
    exact_mod_cast h0

/-! ### Tokenizer separator lemmas: tokenizing around a separator character
splits into the two sides' tokens -/

/-- A character that no `normalizeTech` pattern contains and that is not a
token character: tokenization distributes over it. -/
def sepChar (d : Char) : Prop :=
  isTokenChar d.toLower = false ∧ ∀ pr ∈ techSubs, pr.1 ≠ [] ∧ d.toLower ∉ pr.1

theorem lowerStarts_length : ∀ (pat s : List Char), lowerStarts pat s = true → pat.length ≤ s.length
  | [], _, _ => by simp
  | p :: ps, [], h => by simp [lowerStarts] at h
  | p :: ps, c :: cs, h => by
    simp only [lowerStarts, Bool.and_eq_true] at h
    have := lowerStarts_length ps cs h.2
    simp only [List.length_cons]
    omega

theorem lowerStarts_append_sep {d : Char} :
    ∀ (pat x y : List Char), d.toLower ∉ pat →
      lowerStarts pat (x ++ d :: y) = lowerStarts pat x
  | [], x, y, _ => by simp [lowerStarts]
  | p :: ps, [], y, hd => by
    have hne : (d.toLower == p) = false := by
      rw [beq_eq_false_iff_ne]
      intro hEq
      exact hd (by rw [hEq]; exact List.mem_cons_self _ _)
    simp [lowerStarts, hne]
  | p :: ps, c :: xs, y, hd => by
    simp only [List.cons_append, lowerStarts, List.append_eq]
    rw [lowerStarts_append_sep ps xs y (fun h => hd (List.mem_cons.mpr (Or.inr h)))]

theorem replaceGo_skip (pat rep : List Char) :
    ∀ (n : ℕ) (s : List Char), replaceGo pat rep n s = replaceGo pat rep 0 (s.drop n) := by
  intro n
  induction n with
  | zero => intro s; simp
  | succ n ih =>
    intro s
    cases s with
    | nil => simp [replaceGo]
    | cons c cs => simp [replaceGo, ih, List.drop_succ_cons]

theorem replaceGo_sep_nil {pat rep : List Char} {d : Char}
    (hpat : pat ≠ []) (hd : d.toLower ∉ pat) (y : List Char) :
    replaceGo pat rep 0 (d :: y) = d :: replaceGo pat rep 0 y := by
  obtain ⟨p, ps, rfl⟩ : ∃ p ps, pat = p :: ps := by
    cases pat with
    | nil => exact absurd rfl hpat
    | cons p ps => exact ⟨p, ps, rfl⟩
  have hne : (d.toLower == p) = false := by
    rw [beq_eq_false_iff_ne]
    intro hEq
    exact hd (by rw [hEq]; exact List.mem_cons_self _ _)
  simp [replaceGo, lowerStarts, hne]

theorem replaceGo_sep_aux {pat rep : List Char} {d : Char}
    (hpat : pat ≠ []) (hd : d.toLower ∉ pat) :
    ∀ (n : ℕ) (x y : List Char), x.length ≤ n →
      replaceGo pat rep 0 (x ++ d :: y) =
        replaceGo pat rep 0 x ++ d :: replaceGo pat rep 0 y := by
  intro n
  induction n with
  | zero =>
    intro x y hx
    obtain rfl : x = [] := List.length_eq_zero.mp (Nat.le_zero.mp hx)
    simpa using replaceGo_sep_nil hpat hd y
  | succ n ih =>
    intro x y hx
    cases x with
    | nil => simpa using replaceGo_sep_nil hpat hd y
    | cons c xs =>
      have hcond : lowerStarts pat (c :: (xs ++ d :: y)) = lowerStarts pat (c :: xs) := by
        simpa using lowerStarts_append_sep pat (c :: xs) y hd
      have h2 : xs.length ≤ n := by simpa using hx
      by_cases hm : lowerStarts pat (c :: xs) = true
      · have hlen : pat.length ≤ xs.length + 1 := by
          simpa using lowerStarts_length pat (c :: xs) hm
        have hdrop : (xs ++ d :: y).drop (pat.length - 1) =
            xs.drop (pat.length - 1) ++ d :: y :=
          List.drop_append_of_le_length (by omega)
        have hihlen : (xs.drop (pat.length - 1)).length ≤ n := by
          simp only [List.length_drop]
          omega
        calc replaceGo pat rep 0 ((c :: xs) ++ d :: y)
            = rep ++ replaceGo pat rep (pat.length - 1) (xs ++ d :: y) := by
              simp [replaceGo, hcond, hm]
          _ = rep ++ replaceGo pat rep 0 (xs.drop (pat.length - 1) ++ d :: y) := by
              rw [replaceGo_skip, hdrop]
          _ = rep ++ (replaceGo pat rep 0 (xs.drop (pat.length - 1)) ++
                d :: replaceGo pat rep 0 y) := by
              rw [ih _ y hihlen]
          _ = replaceGo pat rep 0 (c :: xs) ++ d :: replaceGo pat rep 0 y := by
              simp [replaceGo, hm, replaceGo_skip pat rep (pat.length - 1) xs]
      · have hm' : lowerStarts pat (c :: xs) = false := by
          cases hcc : lowerStarts pat (c :: xs) with
          | true => exact absurd hcc hm
          | false => rfl
        calc replaceGo pat rep 0 ((c :: xs) ++ d :: y)
            = c :: replaceGo pat rep 0 (xs ++ d :: y) := by
              simp [replaceGo, hcond, hm']
          _ = c :: (replaceGo pat rep 0 xs ++ d :: replaceGo pat rep 0 y) := by
              rw [ih xs y h2]
          _ = replaceGo pat rep 0 (c :: xs) ++ d :: replaceGo pat rep 0 y := by
              simp [replaceGo, hm']

theorem replaceCI_sep {pat rep : List Char} {d : Char}
    (hpat : pat ≠ []) (hd : d.toLower ∉ pat) (x y : List Char) :
    replaceCI pat rep (x ++ d :: y) = replaceCI pat rep x ++ d :: replaceCI pat rep y :=
  replaceGo_sep_aux hpat hd x.length x y le_rfl

theorem foldRepl_sep {d : Char} :
    ∀ (subs : List (List Char × List Char)) (x y : List Char),
      (∀ pr ∈ subs, pr.1 ≠ [] ∧ d.toLower ∉ pr.1) →
      subs.foldl (fun t pr => replaceCI pr.1 pr.2 t) (x ++ d :: y) =
        subs.foldl (fun t pr => replaceCI pr.1 pr.2 t) x ++ d ::
          subs.foldl (fun t pr => replaceCI pr.1 pr.2 t) y := by
  intro subs
  induction subs with
  | nil => intro x y _; rfl
  | cons pr subs ih =>
    intro x y h
    have h1 := h pr (by simp)
    simp only [List.foldl_cons]
    rw [replaceCI_sep h1.1 h1.2]
    exact ih _ _ (fun q hq => h q (by simp [hq]))

theorem normalizeTech_sep {d : Char} (hd : sepChar d) (x y : List Char) :
    normalizeTech (x ++ d :: y) = normalizeTech x ++ d :: normalizeTech y := by
  unfold normalizeTech
  exact foldRepl_sep techSubs x y hd.2

theorem splitToksGo_sep {d : Char} (hd : isTokenChar d = false) :
    ∀ (x cur y : List Char),
      splitToksGo cur (x ++ d :: y) = splitToksGo cur x ++ splitToksGo [] y := by
  intro x
  induction x with
  | nil =>
    intro cur y
    by_cases hc : cur = []
    · simp [splitToksGo, hd, hc]
    · simp [splitToksGo, hd, hc]
  | cons c xs ih =>
    intro cur y
    by_cases ht : isTokenChar c
    · simp [splitToksGo, ht, ih]
    · by_cases hc : cur = []
      · simp [splitToksGo, ht, hc, ih]
      · simp [splitToksGo, ht, hc, ih]

theorem tokenize_sep {d : Char} (hd : sepChar d) (x y : List Char) :
    tokenize (x ++ d :: y) = tokenize x ++ tokenize y := by
  unfold tokenize splitTokens
  rw [normalizeTech_sep hd, List.map_append, List.map_cons,
    splitToksGo_sep hd.1, List.filter_append]

theorem tokenize_nil : tokenize [] = [] := rfl

theorem tokenize_cons_sep {d : Char} (hd : sepChar d) (y : List Char) :
    tokenize (d :: y) = tokenize y := by
  simpa using tokenize_sep hd [] y

theorem tokenize_append_sep {d : Char} (hd : sepChar d) (x : List Char) :
    tokenize (x ++ [d]) = tokenize x := by
  simpa [tokenize_nil] using tokenize_sep hd x []

theorem sepChar_of_ws {d : Char} (hd : isJsSpace d = true) : sepChar d := by
  have hds : d = ' ' ∨ d = '\t' ∨ d = '\n' ∨ d = '\r' ∨ d = '\x0b' ∨ d = '\x0c' := by
    unfold isJsSpace at hd
    simp only [Bool.or_eq_true, beq_iff_eq] at hd
    tauto
  rcases hds with rfl | rfl | rfl | rfl | rfl | rfl <;> exact ⟨by decide, by decide⟩

/-! ### Trimming does not change the token list -/

theorem tokenize_dropWhile_ws (s : List Char) :
    tokenize (s.dropWhile isJsSpace) = tokenize s := by
  induction s with
  | nil => rfl
  | cons c cs ih =>
    by_cases hc : isJsSpace c
    · rw [List.dropWhile_cons, if_pos hc, ih, tokenize_cons_sep (sepChar_of_ws hc)]
    · rw [List.dropWhile_cons, if_neg hc]

theorem tokenize_rdrop_ws (r : List Char) :
    tokenize ((r.dropWhile isJsSpace).reverse) = tokenize r.reverse := by
  induction r with
  | nil => rfl
  | cons c cs ih =>
    by_cases hc : isJsSpace c
    · rw [List.dropWhile_cons, if_pos hc, ih, List.reverse_cons,
        tokenize_append_sep (sepChar_of_ws hc)]
    · rw [List.dropWhile_cons, if_neg hc]

theorem tokenize_trimChars (s : List Char) : tokenize (trimChars s) = tokenize s := by
  unfold trimChars
  rw [tokenize_rdrop_ws, List.reverse_reverse, tokenize_dropWhile_ws]

/-! ### Line splitting and section containment -/

theorem sepChar_newline : sepChar '\n' := sepChar_of_ws (by decide)

theorem splitNlGo_tokens :
    ∀ (n : ℕ) (s : List Char), s.length ≤ n →
      (∀ acc, (splitNlGo false acc s).flatMap tokenize = tokenize (acc.reverse ++ s)) ∧
      (∀ acc, (splitNlGo true acc s).flatMap tokenize = tokenize s) := by
  intro n
  induction n with
  | zero =>
    intro s hs
    obtain rfl : s = [] := List.length_eq_zero.mp (Nat.le_zero.mp hs)
    constructor
    · intro acc
      simp [splitNlGo]
    · intro acc
      simp [splitNlGo, tokenize_nil]
  | succ n ih =>
    intro s hs
    cases s with
    | nil =>
      constructor
      · intro acc
        simp [splitNlGo]
      · intro acc
        simp [splitNlGo, tokenize_nil]
    | cons c cs =>
      have hcs : cs.length ≤ n := by simpa using hs
      constructor
      · intro acc
        by_cases hc : c = '\n'
        · subst hc
          rw [show splitNlGo false acc ('\n' :: cs) = acc.reverse :: splitNlGo true [] cs from
            by simp [splitNlGo]]
          rw [List.flatMap_cons, (ih cs hcs).2 [], tokenize_sep sepChar_newline]
        · rw [show splitNlGo false acc (c :: cs) = splitNlGo false (c :: acc) cs from
            by simp [splitNlGo, hc]]
          rw [(ih cs hcs).1 (c :: acc)]
          simp
      · intro acc
        by_cases hc : c = '\n'
        · subst hc
          rw [show splitNlGo true acc ('\n' :: cs) = splitNlGo true [] cs from
            by simp [splitNlGo]]
          rw [(ih cs hcs).2 [], tokenize_cons_sep sepChar_newline]
        · rw [show splitNlGo true acc (c :: cs) = splitNlGo false [c] cs from
            by simp [splitNlGo, hc]]
          rw [(ih cs hcs).1 [c]]
          simp

theorem splitNl_tokens (s : List Char) :
    (splitNl s).flatMap tokenize = tokenize s := by
  have := (splitNlGo_tokens s.length s le_rfl).1 []
  simpa [splitNl] using this

theorem tokens_of_line_mem {s l : List Char} (hl : l ∈ splitNl s) :
    ∀ t ∈ tokenize l, t ∈ tokenize s := by
  intro t ht
  rw [← splitNl_tokens s]
  exact List.mem_flatMap.mpr ⟨l, hl, ht⟩

/-- Membership of a token in any of the four accumulated section texts. -/
def memSections (t : List Char) (s : Sections) : Prop :=
  t ∈ tokenize s.requirements ∨ t ∈ tokenize s.responsibilities ∨
    t ∈ tokenize s.preferred ∨ t ∈ tokenize s.other

theorem sepChar_space : sepChar ' ' := sepChar_of_ws (by decide)

theorem foldl_processLine_tokens (S : List (List Char)) :
    ∀ (lines : List (List Char)) (st : SectionKey × Sections),
      (∀ t, memSections t st.2 → t ∈ S) →
      (∀ l ∈ lines, ∀ t ∈ tokenize l, t ∈ S) →
      ∀ t, memSections t (lines.foldl processLine st).2 → t ∈ S := by
  intro lines
  induction lines with
  | nil =>
    intro st hst _ t ht
    exact hst t ht
  | cons l ls ih =>
    intro st hst hls t ht
    refine ih (processLine st l) ?_ (fun q hq v hv => hls q (by simp [hq]) v hv) t ht
    intro u hu
    obtain ⟨k, secs⟩ := st
    have hl : ∀ v ∈ tokenize l, v ∈ S := hls l (by simp)
    unfold processLine at hu
    by_cases hb : trimChars l = []
    · rw [if_pos hb] at hu
      exact hst u hu
    · rw [if_neg hb] at hu
      by_cases h1 : testPat reqPhrases (trimChars l) = true
      · rw [if_pos h1] at hu
        exact hst u hu
      · rw [if_neg h1] at hu
        by_cases h2 : testPat respPhrases (trimChars l) = true
        · rw [if_pos h2] at hu
          exact hst u hu
        · rw [if_neg h2] at hu
          by_cases h3 : testPat prefPhrases (trimChars l) = true
          · rw [if_pos h3] at hu
            exact hst u hu
          · rw [if_neg h3] at hu
            have htrim : ∀ v ∈ tokenize (trimChars l), v ∈ S := by
              rw [tokenize_trimChars]
              exact hl
            have happ : ∀ sec : List Char, (∀ v ∈ tokenize sec, v ∈ S) →
                ∀ v ∈ tokenize (sec ++ ' ' :: trimChars l), v ∈ S := by
              intro sec hsec v hv
              rw [tokenize_sep sepChar_space] at hv
              rcases List.mem_append.mp hv with h | h
              · exact hsec v h
              · exact htrim v h
            cases k with
            | requirements =>
              rcases hu with h | h | h | h
              · exact happ _ (fun v hv => hst v (Or.inl hv)) u h
              · exact hst u (Or.inr (Or.inl h))
              · exact hst u (Or.inr (Or.inr (Or.inl h)))
              · exact hst u (Or.inr (Or.inr (Or.inr h)))
            | responsibilities =>
              rcases hu with h | h | h | h
              · exact hst u (Or.inl h)
              · exact happ _ (fun v hv => hst v (Or.inr (Or.inl hv))) u h
              · exact hst u (Or.inr (Or.inr (Or.inl h)))
              · exact hst u (Or.inr (Or.inr (Or.inr h)))
            | preferred =>
              rcases hu with h | h | h | h
              · exact hst u (Or.inl h)
              · exact hst u (Or.inr (Or.inl h))
              · exact happ _ (fun v hv => hst v (Or.inr (Or.inr (Or.inl hv)))) u h
              · exact hst u (Or.inr (Or.inr (Or.inr h)))
            | other =>
              rcases hu with h | h | h | h
              · exact hst u (Or.inl h)
              · exact hst u (Or.inr (Or.inl h))
              · exact hst u (Or.inr (Or.inr (Or.inl h)))
              · exact happ _ (fun v hv => hst v (Or.inr (Or.inr (Or.inr hv)))) u h

theorem splitJDSections_tokens (jdText : List Char) :
    ∀ t, memSections t (splitJDSections jdText) → t ∈ tokenize jdText := by
  intro t ht
  refine foldl_processLine_tokens (tokenize jdText) (splitNl jdText)
      (SectionKey.other, ⟨[], [], [], []⟩) ?_ ?_ t ht
  · intro u hu
    rcases hu with h | h | h | h <;> simp [tokenize_nil] at h
  · intro l hl
    exact tokens_of_line_mem hl

/-! ### Aggregator lemmas -/

theorem weightSum_eq (l : List ScorePart) :
    l.foldl (fun sum p => sum + p.weight) 0 = (l.map ScorePart.weight).sum := by
  simpa using foldl_add_map ScorePart.weight l 0

theorem weight_sum_pos (l : List ScorePart) (hw : ∀ p ∈ l, 0 < p.weight) (hne : l ≠ []) :
    0 < (l.map ScorePart.weight).sum := by
  apply List.sum_pos
  · intro x hx
    obtain ⟨p, hp, rfl⟩ := List.mem_map.mp hx
    exact hw p hp
  · simpa [List.map_eq_nil_iff] using hne

theorem weightedFold_eq_sum (l : List ScorePart)
    (hW : 0 < (l.map ScorePart.weight).sum) :
    weightedFold l =
      (l.map (fun p => p.ratio * (p.weight / (l.map ScorePart.weight).sum))).sum := by
  have hW' : ((l.map ScorePart.weight).sum > 0) = True := eq_true hW
  simp only [weightedFold, weightSum_eq, hW', if_true]
  simpa using foldl_add_map (fun p => p.ratio * (p.weight / (l.map ScorePart.weight).sum)) l 0

theorem weightedFold_ones (l : List ScorePart)
    (hr : ∀ p ∈ l, p.ratio = 1) (hw : ∀ p ∈ l, 0 < p.weight) (hne : l ≠ []) :
    weightedFold l = 1 := by
  have hW := weight_sum_pos l hw hne
  rw [weightedFold_eq_sum l hW]
  have hmap : l.map (fun p => p.ratio * (p.weight / (l.map ScorePart.weight).sum)) =
      l.map (fun p => p.weight / (l.map ScorePart.weight).sum) := by
    apply List.map_eq_map_iff.mpr
    intro p hp
    rw [hr p hp, one_mul]
  rw [hmap, sum_map_div ScorePart.weight _ l, div_self (ne_of_gt hW)]

theorem renorm_eq_one (l : List ScorePart)
    (hw : ∀ p ∈ l, 0 < p.weight) (hne : l ≠ []) :
    (l.map (fun p => p.weight / (l.map ScorePart.weight).sum)).sum = 1 := by
  have hW := weight_sum_pos l hw hne
  rw [sum_map_div ScorePart.weight _ l, div_self (ne_of_gt hW)]

theorem mem_activeParts {bd : ScoreBreakdown} {p : ScorePart} :
    p ∈ activeParts bd ↔
      (p ∈ [bd.requirements, bd.responsibilities, bd.preferred, bd.other] ∧ 0 < p.total) := by
  simp [activeParts, List.mem_filter]

theorem activeParts_base_weight_pos (cvT : List (List Char)) (secs : Sections) :
    ∀ p ∈ activeParts (baseBreakdown cvT secs), 0 < p.weight := by
  intro p hp
  have hmem := (mem_activeParts.mp hp).1
  simp only [baseBreakdown, List.mem_cons, List.mem_singleton, List.not_mem_nil,
    or_false] at hmem
  rcases hmem with rfl | rfl | rfl | rfl <;> norm_num [mkPart]

theorem computeMatchScore_fallback (cvText jdText : List Char)
    (h : activeParts (baseBreakdown (jsDedup (tokenize cvText)) (splitJDSections jdText)) = []) :
    computeMatchScore cvText jdText =
      ⟨jsRound ((coverageScore jdText (jsDedup (tokenize cvText))).ratio * 100),
       ⟨mkPart (coverageScore jdText (jsDedup (tokenize cvText))) 1,
        zeroPart, zeroPart, zeroPart⟩⟩ := by
  simp [computeMatchScore, h]

theorem computeMatchScore_main (cvText jdText : List Char)
    (h : activeParts (baseBreakdown (jsDedup (tokenize cvText)) (splitJDSections jdText)) ≠ []) :
    computeMatchScore cvText jdText =
      ⟨jsRound (weightedFold (activeParts
          (baseBreakdown (jsDedup (tokenize cvText)) (splitJDSections jdText))) * 100),
       baseBreakdown (jsDedup (tokenize cvText)) (splitJDSections jdText)⟩ := by
  simp only [computeMatchScore]
  rw [if_neg (by simpa [List.length_eq_zero] using h)]

/-! ### Claims C3, C4, C2 -/

/-- Claim C3: the match score in the response is computed deterministically
by the core and never supplied by the LLM — whatever JSON the LLM
collaborator returns, the final analysis carries `computeMatchScore`'s
score and breakdown, and two runs on the same texts with different LLM
outputs agree on the match score. -/
theorem finalizeAnalysis_matchScore_deterministic (envW : Option ℚ)
    (cvText jdText : List Char) (compensation : CompensationResult) :
    (∀ llm : LLMOut,
      (finalizeAnalysis envW cvText jdText compensation llm).matchScore =
          (computeMatchScore cvText jdText).score ∧
        (finalizeAnalysis envW cvText jdText compensation llm).scoreBreakdown =
          (computeMatchScore cvText jdText).breakdown) ∧
    (∀ llm1 llm2 : LLMOut,
      (finalizeAnalysis envW cvText jdText compensation llm1).matchScore =
        (finalizeAnalysis envW cvText jdText compensation llm2).matchScore) := by
  constructor
  · intro llm
    constructor <;> simp only [finalizeAnalysis]
  · intro llm1 llm2
    simp only [finalizeAnalysis]

/-- Claim C3 witness: an LLM output carrying its own `matchScore` 42 is
overwritten by the deterministic score. -/
theorem finalizeAnalysis_matchScore_deterministic_witness :
    (finalizeAnalysis none ("python".data) ("python".data) ⟨none, []⟩
        ⟨some 42, none, none, none, none, none⟩).matchScore =
      (computeMatchScore ("python".data) ("python".data)).score :=
  ((finalizeAnalysis_matchScore_deterministic none ("python".data) ("python".data)
      ⟨none, []⟩).1 ⟨some 42, none, none, none, none, none⟩).1

theorem normalizeWeight_eq_spec (envW : Option ℚ) :
    normalizeWeight envW 0.8 = specSkillWeight envW := by
  cases envW with
  | none => rfl
  | some v =>
    simp only [normalizeWeight, specSkillWeight]
    by_cases h0 : 0 < v ∧ v < 1
    · rw [if_neg (show ¬(v ≤ 0 ∨ v ≥ 1) by push_neg; exact ⟨h0.1, h0.2⟩), if_pos h0]
    · have hv : v ≤ 0 ∨ v ≥ 1 := by
        by_contra hc
        push_neg at hc
        exact h0 ⟨hc.1, hc.2⟩
      rw [if_pos hv, if_neg h0]

/-- Claim C4: the Overall Score Combiner returns `null` when the match
score is not a number, returns the match score unchanged when the
compensation fit is absent, and otherwise blends the two with the
configured skill weight, which falls back to 0.8 — without erroring —
whenever the configured value is not strictly between 0 and 1. -/
theorem computeOverallScore_spec (envW m c : Option ℚ) :
    (m = none → computeOverallScore envW m c = none) ∧
    (∀ mv, m = some mv → c = none → computeOverallScore envW m c = some mv) ∧
    (∀ mv cv, m = some mv → c = some cv →
      computeOverallScore envW m c =
        some ((jsRound (mv * specSkillWeight envW +
          cv * (1 - specSkillWeight envW)) : ℤ) : ℚ)) ∧
    (∀ v, envW = some v → v ≤ 0 ∨ 1 ≤ v →
      computeOverallScore envW m c = computeOverallScore (some 0.8) m c) := by
  refine ⟨?_, ?_, ?_, ?_⟩
  · rintro rfl
    rfl
  · rintro mv rfl rfl
    rfl
  · rintro mv cv rfl rfl
    simp only [computeOverallScore, normalizeWeight_eq_spec]
  · rintro v rfl hv
    cases m with
    | none => rfl
    | some mv =>
      cases c with
      | none => rfl
      | some cv =>
        have h1 : normalizeWeight (some v) (0.8 : ℚ) = 0.8 := by
          simp only [normalizeWeight]
          exact if_pos hv
        have h2 : normalizeWeight (some (0.8 : ℚ)) (0.8 : ℚ) = 0.8 := by
          simp only [normalizeWeight]
          split <;> rfl
        simp only [computeOverallScore, h1, h2]

/-- Claim C4 witness: the invalid configured weight 1.5 falls back to 0.8,
and matchScore 67 with compensationFit 67 blends to overall 67. -/
theorem computeOverallScore_spec_witness :
    computeOverallScore (some (3/2)) (some 67) (some 67) = some 67 ∧
    computeOverallScore (some (3/2)) (some 67) (some 67) =
      computeOverallScore (some 0.8) (some 67) (some 67) := by
  have h := computeOverallScore_spec (some (3/2)) (some 67) (some 67)
  constructor
  · rw [h.2.2.1 67 67 rfl rfl]
    norm_num [specSkillWeight, jsRound]
  · exact h.2.2.2 (3/2) rfl (by norm_num)

/-- Claim C2 (amended): with both salary ranges present (min ≤ max each),
the returned compensation score is the overlap / gap formula **clamped to
[0, 100]** — `round(100 × overlap/span)` on positive overlap, otherwise
`max(0, round(100 − 100 × gap/span))`, both clamped — and therefore always
lies in [0, 100]. -/
theorem computeCompensationFit_spec (c r : SalaryRange)
    (hc : c.min ≤ c.max) (hr : r.min ≤ r.max) :
    (computeCompensationFit (some c) (some r)).score =
      some (max 0 (min 100
        (if 0 < max 0 (min c.max r.max - max c.min r.min) then
          jsRound (100 * max 0 (min c.max r.max - max c.min r.min) / max 1 (r.max - r.min))
        else
          max 0 (jsRound (100 - 100 *
            (if r.max < c.min then c.min - r.max else r.min - c.max) /
              max 1 (r.max - r.min)))))) ∧
    (∀ s, (computeCompensationFit (some c) (some r)).score = some s →
      0 ≤ s ∧ s ≤ 100) := by
  constructor
  · have harr : ∀ a b : ℚ, a / b * 100 = 100 * a / b := by
      intro a b
      ring
    simp only [computeCompensationFit, gt_iff_lt, harr]
  · intro s hs
    simp only [computeCompensationFit, Option.some.injEq] at hs
    omega

/-- Claim C2 witness: the spec's example — candidate [80000, 110000]
against role [90000, 120000] scores 67, within [0, 100]. -/
theorem computeCompensationFit_spec_witness :
    (computeCompensationFit (some ⟨80000, 110000⟩) (some ⟨90000, 120000⟩)).score =
        some 67 ∧
    (0 : ℤ) ≤ 67 ∧ (67 : ℤ) ≤ 100 := by
  have h := computeCompensationFit_spec ⟨80000, 110000⟩ ⟨90000, 120000⟩
    (by norm_num) (by norm_num)
  refine ⟨?_, by norm_num, by norm_num⟩
  rw [h.1]
  norm_num [jsRound, min_def, max_def]

/-- Claim C2 counterexample: candidate range [5, 5] lies inside role range
[4, 6] with zero-width overlap, so the claim's unclamped gap formula gives
150, while the code returns the clamped score 100. -/
theorem computeCompensationFit_touching_cex :
    (5 : ℚ) ≤ 5 ∧ (4 : ℚ) ≤ 6 ∧
    max (0 : ℚ) (min (5 : ℚ) 6 - max (5 : ℚ) 4) = 0 ∧
    (computeCompensationFit (some ⟨5, 5⟩) (some ⟨4, 6⟩)).score = some 100 ∧
    max (0 : ℤ) (jsRound (100 - 100 * (((4 : ℚ) - 5) / max 1 ((6 : ℚ) - 4)))) = 150 := by
  refine ⟨by norm_num, by norm_num, by norm_num, ?_, ?_⟩
  · simp only [computeCompensationFit]
    norm_num [jsRound, min_def, max_def]
  · norm_num [jsRound, max_def]

/-! ### Claims C5 and C9: the segmenter -/

theorem appendCurrent_nil (k : SectionKey) (secs : Sections) :
    appendCurrent k [] secs = secs := by
  cases k <;> simp [appendCurrent]

theorem appendCurrent_append (k : SectionKey) (a b : List Char) (secs : Sections) :
    appendCurrent k b (appendCurrent k a secs) = appendCurrent k (a ++ b) secs := by
  cases k <;> simp [appendCurrent]

theorem joinFold_init (lines : List (List Char)) :
    ∀ init, lines.foldl
        (fun acc l => if trimChars l = [] then acc else acc ++ ' ' :: trimChars l) init =
      init ++ lines.foldl
        (fun acc l => if trimChars l = [] then acc else acc ++ ' ' :: trimChars l) [] := by
  induction lines with
  | nil =>
    intro init
    simp
  | cons l ls ih =>
    intro init
    by_cases hb : trimChars l = []
    · simp only [List.foldl_cons, if_pos hb]
      exact ih init
    · simp only [List.foldl_cons, if_neg hb, List.nil_append]
      rw [ih (init ++ ' ' :: trimChars l), ih (' ' :: trimChars l)]
      simp [List.append_assoc]

theorem foldl_processLine_no_heading :
    ∀ (lines : List (List Char)),
      (∀ l ∈ lines,
        testPat reqPhrases (trimChars l) = false ∧
        testPat respPhrases (trimChars l) = false ∧
        testPat prefPhrases (trimChars l) = false) →
      ∀ (k : SectionKey) (secs : Sections),
        lines.foldl processLine (k, secs) =
          (k, appendCurrent k
            (lines.foldl
              (fun acc l => if trimChars l = [] then acc else acc ++ ' ' :: trimChars l) [])
            secs) := by
  intro lines
  induction lines with
  | nil =>
    intro _ k secs
    simp [appendCurrent_nil]
  | cons l ls ih =>
    intro h k secs
    obtain ⟨hl, hls⟩ := List.forall_mem_cons.mp h
    simp only [List.foldl_cons]
    by_cases hb : trimChars l = []
    · rw [show processLine (k, secs) l = (k, secs) from by
        simp only [processLine, if_pos hb]]
      rw [ih hls k secs, if_pos hb]
    · rw [show processLine (k, secs) l =
          (k, appendCurrent k (' ' :: trimChars l) secs) from by
        simp only [processLine]
        rw [if_neg hb, if_neg (by simp [hl.1]), if_neg (by simp [hl.2.1]),
          if_neg (by simp [hl.2.2])]]
      rw [ih hls k (appendCurrent k (' ' :: trimChars l) secs), if_neg hb]
      simp only [List.nil_append]
      rw [joinFold_init ls (' ' :: trimChars l), appendCurrent_append]

/-- Claim C5: the Segmenter walks the lines with an `other`-initialized
cursor; each non-blank line is tested against the three heading patterns
in fixed precedence order, a matching line switches the cursor and is
consumed (appended to no section), and a non-matching line is appended,
with a separating space, to the current section.  Consequently a JD none
of whose lines matches a heading pattern has all of its text in `other`
and the other three sections empty. -/
theorem splitJDSections_spec (jdText : List Char) :
    (∀ (st : SectionKey × Sections) (line : List Char),
      (trimChars line = [] → processLine st line = st) ∧
      (testPat reqPhrases (trimChars line) = true →
        processLine st line = (SectionKey.requirements, st.2)) ∧
      (testPat reqPhrases (trimChars line) = false →
        testPat respPhrases (trimChars line) = true →
        processLine st line = (SectionKey.responsibilities, st.2)) ∧
      (testPat reqPhrases (trimChars line) = false →
        testPat respPhrases (trimChars line) = false →
        testPat prefPhrases (trimChars line) = true →
        processLine st line = (SectionKey.preferred, st.2)) ∧
      (trimChars line ≠ [] →
        testPat reqPhrases (trimChars line) = false →
        testPat respPhrases (trimChars line) = false →
        testPat prefPhrases (trimChars line) = false →
        processLine st line = (st.1, appendCurrent st.1 (' ' :: trimChars line) st.2))) ∧
    ((∀ l ∈ splitNl jdText,
        testPat reqPhrases (trimChars l) = false ∧
        testPat respPhrases (trimChars l) = false ∧
        testPat prefPhrases (trimChars l) = false) →
      splitJDSections jdText =
        ⟨[], [], [],
         (splitNl jdText).foldl
           (fun acc l => if trimChars l = [] then acc else acc ++ ' ' :: trimChars l) []⟩) := by
  constructor
  · intro st line
    refine ⟨?_, ?_, ?_, ?_, ?_⟩
    · intro hb
      simp only [processLine, if_pos hb]
    · intro h1
      have hb : trimChars line ≠ [] := by
        intro hcon
        rw [hcon] at h1
        exact absurd h1 (by decide)
      simp only [processLine]
      rw [if_neg hb, if_pos h1]
    · intro h1 h2
      have hb : trimChars line ≠ [] := by
        intro hcon
        rw [hcon] at h2
        exact absurd h2 (by decide)
      simp only [processLine]
      rw [if_neg hb, if_neg (by simp [h1]), if_pos h2]
    · intro h1 h2 h3
      have hb : trimChars line ≠ [] := by
        intro hcon
        rw [hcon] at h3
        exact absurd h3 (by decide)
      simp only [processLine]
      rw [if_neg hb, if_neg (by simp [h1]), if_neg (by simp [h2]), if_pos h3]
    · intro hb h1 h2 h3
      simp only [processLine]
      rw [if_neg hb, if_neg (by simp [h1]), if_neg (by simp [h2]), if_neg (by simp [h3])]
  · intro h
    unfold splitJDSections
    rw [foldl_processLine_no_heading (splitNl jdText) h SectionKey.other ⟨[], [], [], []⟩]
    simp [appendCurrent]

/-- Claim C5 witness: a JD with no heading-like line keeps everything in
`other`. -/
theorem splitJDSections_spec_witness :
    splitJDSections ("an amazing opportunity\nwrite clean code".data) =
      ⟨[], [], [], " an amazing opportunity write clean code".data⟩ := by
  rw [(splitJDSections_spec ("an amazing opportunity\nwrite clean code".data)).2 (by decide)]
  decide

/-- Claim C9: the heading patterns are unanchored word tests — any line
containing a trigger word anywhere as a whole word is treated as a heading
(the cursor switches in precedence order and the line is appended to no
section), even for an ordinary content line such as
"5 plus years of python", which disappears from the output entirely. -/
theorem headings_unanchored :
    (∀ (st : SectionKey × Sections) (line : List Char),
      (testPat reqPhrases (trimChars line) = true →
        processLine st line = (SectionKey.requirements, st.2)) ∧
      (testPat reqPhrases (trimChars line) = false →
        testPat respPhrases (trimChars line) = true →
        processLine st line = (SectionKey.responsibilities, st.2)) ∧
      (testPat reqPhrases (trimChars line) = false →
        testPat respPhrases (trimChars line) = false →
        testPat prefPhrases (trimChars line) = true →
        processLine st line = (SectionKey.preferred, st.2))) ∧
    testPat prefPhrases (trimChars ("5 plus years of python".data)) = true ∧
    splitJDSections ("5 plus years of python".data) = ⟨[], [], [], []⟩ := by
  refine ⟨?_, by decide, by decide⟩
  intro st line
  have h := (splitJDSections_spec []).1 st line
  exact ⟨h.2.1, h.2.2.1, h.2.2.2.1⟩

/-- Claim C9 witness: an ordinary content line containing "role" switches
the cursor to responsibilities and its text reaches no section. -/
theorem headings_unanchored_witness :
    processLine (SectionKey.other, ⟨[], [], [], "intro text".data⟩)
        ("Experience with role based access control".data) =
      (SectionKey.responsibilities, ⟨[], [], [], "intro text".data⟩) :=
  (headings_unanchored.1 (SectionKey.other, ⟨[], [], [], "intro text".data⟩)
      ("Experience with role based access control".data)).2.1 (by decide) (by decide)

/-! ### Claim C10: clampText -/

theorem clampText_length_le (input : List Char) :
    (clampText input).length ≤ MAX_CHARS + 3 := by
  unfold clampText
  by_cases h : (trimChars (collapseWs input)).length ≤ MAX_CHARS
  · rw [if_pos h]
    omega
  · rw [if_neg h]
    simp only [List.length_append, List.length_take,
      show ("...".data).length = 3 from by decide]
    omega

/-- Claim C10: before scoring, each input passes through `clampText`,
which collapses whitespace runs, trims, and when the result exceeds 12000
characters truncates it to exactly 12000 characters and appends "...";
hence every scored text has length at most 12003 and short inputs pass
through untruncated. -/
theorem clampText_spec (input : List Char) :
    MAX_CHARS = 12000 ∧
    (clampText input).length ≤ 12003 ∧
    ((trimChars (collapseWs input)).length ≤ 12000 →
      clampText input = trimChars (collapseWs input)) ∧
    (12000 < (trimChars (collapseWs input)).length →
      clampText input = (trimChars (collapseWs input)).take 12000 ++ "...".data ∧
      ((trimChars (collapseWs input)).take 12000).length = 12000) ∧
    (∀ fileText, (selectText input fileText).length ≤ 12003) := by
  refine ⟨rfl, ?_, ?_, ?_, ?_⟩
  · have := clampText_length_le input
    simpa [MAX_CHARS] using this
  · intro h
    unfold clampText
    rw [if_pos (by simpa [MAX_CHARS] using h)]
  · intro h
    unfold clampText
    rw [if_neg (by simp [MAX_CHARS]; omega)]
    refine ⟨rfl, ?_⟩
    simp only [List.length_take, MAX_CHARS]
    omega
  · intro fileText
    unfold selectText
    by_cases h : trimChars input ≠ []
    · rw [if_pos h]
      have := clampText_length_le input
      simpa [MAX_CHARS] using this
    · rw [if_neg h]
      cases fileText with
      | none => simp
      | some t =>
        have := clampText_length_le t
        simpa [MAX_CHARS] using this

/-- Claim C10 witness: whitespace runs collapse, ends are trimmed, and a
short input passes through untruncated. -/
theorem clampText_spec_witness :
    clampText ("  a \t\n b   c  ".data) = "a b c".data := by
  rw [(clampText_spec ("  a \t\n b   c  ".data)).2.2.1 (by decide)]
  decide

/-! ### Claim C8: salary parsing and range normalization -/

theorem jsNumberOfRaw_nonneg {raw : List Char} {v : ℚ}
    (h : jsNumberOfRaw raw = some v) : 0 ≤ v := by
  unfold jsNumberOfRaw at h
  by_cases hc : raw.count '.' ≤ 1 ∧ raw.any Char.isDigit
  · rw [if_pos hc, Option.some.injEq] at h
    rw [← h]
    positivity
  · rw [if_neg hc] at h
    exact absurd h (by simp)

theorem parseSalary_nonneg {x : Option (List Char)} {v : ℚ}
    (h : parseSalary x = some v) : 0 ≤ v := by
  cases x with
  | none => exact absurd h (by simp [parseSalary])
  | some s =>
    simp only [parseSalary] at h
    by_cases hs : s = []
    · rw [if_pos hs] at h
      exact absurd h (by simp)
    · rw [if_neg hs] at h
      by_cases hr : s.filter (fun c => c.isDigit || c == '.') = []
      · rw [if_pos hr] at h
        exact absurd h (by simp)
      · rw [if_neg hr] at h
        exact jsNumberOfRaw_nonneg h

/-- Claim C8 (amended): when neither raw input parses the range is `null`;
when exactly one parses both bounds collapse to that value; when both
parse the bounds are ordered (min ≤ max); and the bounds are the parsed
non-negative decimal values — possibly fractional, not necessarily
integers. -/
theorem normalizeRange_spec (rawMin rawMax : Option (List Char)) :
    (parseSalary rawMin = none → parseSalary rawMax = none →
      normalizeRange (parseSalary rawMin) (parseSalary rawMax) = none) ∧
    (∀ v, parseSalary rawMin = some v → parseSalary rawMax = none →
      normalizeRange (parseSalary rawMin) (parseSalary rawMax) = some ⟨v, v⟩) ∧
    (∀ v, parseSalary rawMin = none → parseSalary rawMax = some v →
      normalizeRange (parseSalary rawMin) (parseSalary rawMax) = some ⟨v, v⟩) ∧
    (∀ a b, parseSalary rawMin = some a → parseSalary rawMax = some b →
      normalizeRange (parseSalary rawMin) (parseSalary rawMax) =
          some ⟨min a b, max a b⟩ ∧ min a b ≤ max a b) ∧
    (∀ side v, parseSalary side = some v → 0 ≤ v) := by
  refine ⟨?_, ?_, ?_, ?_, fun side v h => parseSalary_nonneg h⟩
  · intro h1 h2
    rw [h1, h2]
    rfl
  · intro v h1 h2
    rw [h1, h2]
    simp [normalizeRange]
  · intro v h1 h2
    rw [h1, h2]
    simp [normalizeRange]
  · intro a b h1 h2
    rw [h1, h2]
    exact ⟨rfl, min_le_max⟩

/-- Claim C8 witness: both bounds given in reversed order come out
ordered. -/
theorem normalizeRange_spec_witness :
    normalizeRange (parseSalary (some ("110000".data))) (parseSalary (some ("80000".data))) =
      some ⟨80000, 110000⟩ := by
  have hp1 : parseSalary (some ("110000".data)) = some 110000 := by
    have hraw : ("110000".data.filter (fun c => c.isDigit || c == '.')) = "110000".data := by
      decide
    simp only [parseSalary, hraw]
    rw [if_neg (by decide), if_neg (by decide)]
    unfold jsNumberOfRaw
    rw [if_pos (by decide)]
    rw [show (("110000".data).takeWhile (fun c => c ≠ '.')) = "110000".data from by decide,
      show ((("110000".data).dropWhile (fun c => c ≠ '.')).drop 1) = ([] : List Char) from by decide,
      show digitsVal "110000".data = 110000 from by decide,
      show digitsVal ([] : List Char) = 0 from by decide]
    norm_num
  have hp2 : parseSalary (some ("80000".data)) = some 80000 := by
    have hraw : ("80000".data.filter (fun c => c.isDigit || c == '.')) = "80000".data := by
      decide
    simp only [parseSalary, hraw]
    rw [if_neg (by decide), if_neg (by decide)]
    unfold jsNumberOfRaw
    rw [if_pos (by decide)]
    rw [show (("80000".data).takeWhile (fun c => c ≠ '.')) = "80000".data from by decide,
      show ((("80000".data).dropWhile (fun c => c ≠ '.')).drop 1) = ([] : List Char) from by decide,
      show digitsVal "80000".data = 80000 from by decide,
      show digitsVal ([] : List Char) = 0 from by decide]
    norm_num
  have h := (normalizeRange_spec (some ("110000".data)) (some ("80000".data))).2.2.2.1
    110000 80000 hp1 hp2
  rw [h.1]
  norm_num

/-- Claim C8 counterexample: the raw input "100.5" yields the fractional
bound 100.5 = 201/2, which is not an integer number of currency units. -/
theorem normalizeRange_fractional_cex :
    normalizeRange (parseSalary (some ("100.5".data))) (parseSalary none) =
      some ⟨201/2, 201/2⟩ ∧
    ¬ ∃ z : ℤ, ((201 : ℚ)/2) = (z : ℚ) := by
  constructor
  · have hp : parseSalary (some ("100.5".data)) = some (201/2) := by
      have hraw : ("100.5".data.filter (fun c => c.isDigit || c == '.')) = "100.5".data := by
        decide
      simp only [parseSalary, hraw]
      rw [if_neg (by decide), if_neg (by decide)]
      unfold jsNumberOfRaw
      rw [if_pos (by decide)]
      rw [show (("100.5".data).takeWhile (fun c => c ≠ '.')) = "100".data from by decide,
        show ((("100.5".data).dropWhile (fun c => c ≠ '.')).drop 1) = "5".data from by decide,
        show digitsVal "100".data = 100 from by decide,
        show digitsVal "5".data = 5 from by decide]
      norm_num
    rw [hp, show parseSalary none = none from rfl]
    simp [normalizeRange]
  · rintro ⟨z, hz⟩
    have h2 : (201 : ℚ) = 2 * (z : ℚ) := by
      field_simp at hz
      linarith
    have h3 : (201 : ℤ) = 2 * z := by
      exact_mod_cast h2
    omega

/-! ### Claim C1: the aggregator refines the spec formula -/

/-- Claim C1: the Match Score Aggregator computes per-section coverage
with the fixed base weights {requirements 0.6, responsibilities 0.25,
preferred 0.15, other 0.1} and filters to the active (total > 0)
sections; with at least one active section the returned score is
`round(100 × Σ ratio_i × (weight_i / Σ active weights))` (the breakdown
carries the base weights); with none it scores the whole JD as one
undivided block whose part, with weight 1.0, is attached to
`requirements` while the other three parts are zeroed, returning
`round(100 × ratio)`. -/
theorem computeMatchScore_spec (cvText jdText : List Char) :
    (computeMatchScore cvText jdText).score = specMatchScore cvText jdText ∧
    (activeParts (baseBreakdown (jsDedup (tokenize cvText)) (splitJDSections jdText)) ≠ [] →
      (computeMatchScore cvText jdText).breakdown =
        baseBreakdown (jsDedup (tokenize cvText)) (splitJDSections jdText)) ∧
    (activeParts (baseBreakdown (jsDedup (tokenize cvText)) (splitJDSections jdText)) = [] →
      (computeMatchScore cvText jdText).breakdown =
        ⟨mkPart (coverageScore jdText (jsDedup (tokenize cvText))) 1,
         zeroPart, zeroPart, zeroPart⟩) := by
  refine ⟨?_, fun h => by rw [computeMatchScore_main cvText jdText h],
    fun h => by rw [computeMatchScore_fallback cvText jdText h]⟩
  have hkey : activeParts (baseBreakdown (jsDedup (tokenize cvText)) (splitJDSections jdText)) =
      (([(coverageScore (splitJDSections jdText).requirements (jsDedup (tokenize cvText)),
           (0.6 : ℚ)),
         (coverageScore (splitJDSections jdText).responsibilities (jsDedup (tokenize cvText)),
           0.25),
         (coverageScore (splitJDSections jdText).preferred (jsDedup (tokenize cvText)), 0.15),
         (coverageScore (splitJDSections jdText).other (jsDedup (tokenize cvText)), 0.1)].filter
          (fun pr => decide (0 < pr.1.total))).map (fun pr => mkPart pr.1 pr.2)) := by
    rw [show (fun pr : CoverageResult × ℚ => decide (0 < pr.1.total)) =
        ((fun p : ScorePart => decide (0 < p.total)) ∘
          (fun pr : CoverageResult × ℚ => mkPart pr.1 pr.2)) from rfl]
    rw [← List.map_filter (fun pr : CoverageResult × ℚ => mkPart pr.1 pr.2)]
    rfl
  have hpos : ∀ pr ∈ [(coverageScore (splitJDSections jdText).requirements
        (jsDedup (tokenize cvText)), (0.6 : ℚ)),
      (coverageScore (splitJDSections jdText).responsibilities (jsDedup (tokenize cvText)), 0.25),
      (coverageScore (splitJDSections jdText).preferred (jsDedup (tokenize cvText)), 0.15),
      (coverageScore (splitJDSections jdText).other (jsDedup (tokenize cvText)), 0.1)],
      (0 : ℚ) < pr.2 := by
    intro pr hpr
    simp only [List.mem_cons, List.not_mem_nil, or_false] at hpr
    rcases hpr with rfl | rfl | rfl | rfl <;> norm_num
  by_cases hact : ([(coverageScore (splitJDSections jdText).requirements
        (jsDedup (tokenize cvText)), (0.6 : ℚ)),
      (coverageScore (splitJDSections jdText).responsibilities (jsDedup (tokenize cvText)), 0.25),
      (coverageScore (splitJDSections jdText).preferred (jsDedup (tokenize cvText)), 0.15),
      (coverageScore (splitJDSections jdText).other (jsDedup (tokenize cvText)), 0.1)].filter
        (fun pr => decide (0 < pr.1.total))) = []
  · have hbd : activeParts (baseBreakdown (jsDedup (tokenize cvText))
        (splitJDSections jdText)) = [] := by
      rw [hkey, hact]
      rfl
    rw [computeMatchScore_fallback cvText jdText hbd]
    simp only [specMatchScore]
    rw [if_pos hact]
    show jsRound ((coverageScore jdText (jsDedup (tokenize cvText))).ratio * 100) =
      jsRound (100 * (coverageScore jdText (jsDedup (tokenize cvText))).ratio)
    rw [mul_comm]
  · have hbd : activeParts (baseBreakdown (jsDedup (tokenize cvText))
        (splitJDSections jdText)) ≠ [] := by
      rw [hkey]
      simpa [List.map_eq_nil_iff] using hact
    rw [computeMatchScore_main cvText jdText hbd]
    simp only [specMatchScore]
    rw [if_neg hact]
    show jsRound (weightedFold (activeParts (baseBreakdown (jsDedup (tokenize cvText))
        (splitJDSections jdText))) * 100) = _
    rw [hkey]
    have hW2 : ((([(coverageScore (splitJDSections jdText).requirements
            (jsDedup (tokenize cvText)), (0.6 : ℚ)),
          (coverageScore (splitJDSections jdText).responsibilities
            (jsDedup (tokenize cvText)), 0.25),
          (coverageScore (splitJDSections jdText).preferred (jsDedup (tokenize cvText)), 0.15),
          (coverageScore (splitJDSections jdText).other (jsDedup (tokenize cvText)), 0.1)].filter
            (fun pr => decide (0 < pr.1.total))).map
          (fun pr => mkPart pr.1 pr.2)).map ScorePart.weight) =
        ([(coverageScore (splitJDSections jdText).requirements
            (jsDedup (tokenize cvText)), (0.6 : ℚ)),
          (coverageScore (splitJDSections jdText).responsibilities
            (jsDedup (tokenize cvText)), 0.25),
          (coverageScore (splitJDSections jdText).preferred (jsDedup (tokenize cvText)), 0.15),
          (coverageScore (splitJDSections jdText).other (jsDedup (tokenize cvText)), 0.1)].filter
            (fun pr => decide (0 < pr.1.total))).map Prod.snd := by
      rw [List.map_map]
      rfl
    have hWpos : 0 < (([(coverageScore (splitJDSections jdText).requirements
          (jsDedup (tokenize cvText)), (0.6 : ℚ)),
        (coverageScore (splitJDSections jdText).responsibilities
          (jsDedup (tokenize cvText)), 0.25),
        (coverageScore (splitJDSections jdText).preferred (jsDedup (tokenize cvText)), 0.15),
        (coverageScore (splitJDSections jdText).other (jsDedup (tokenize cvText)), 0.1)].filter
          (fun pr => decide (0 < pr.1.total))).map Prod.snd).sum := by
      apply List.sum_pos
      · intro x hx
        obtain ⟨pr, hpr, rfl⟩ := List.mem_map.mp hx
        exact hpos pr (List.mem_of_mem_filter hpr)
      · simpa [List.map_eq_nil_iff] using hact
    rw [weightedFold_eq_sum _ (by rw [hW2]; exact hWpos), hW2, List.map_map, mul_comm]
    rfl

/-! ### Claims C6 and C7 -/

set_option maxHeartbeats 1600000 in
/-- Claim C6 (amended): when the deduplicated token sets of resume and JD
are identical and non-empty, every **active** (total > 0) part of the
returned breakdown has ratio 1.0 and the overall match score is 100.
(Inactive parts keep ratio 0, and an empty common token set scores 0 —
see the counterexample.) -/
theorem computeMatchScore_identical_tokens (cvText jdText : List Char)
    (hset : ∀ t, t ∈ tokenize cvText ↔ t ∈ tokenize jdText)
    (hne : tokenize jdText ≠ []) :
    (∀ p ∈ [(computeMatchScore cvText jdText).breakdown.requirements,
            (computeMatchScore cvText jdText).breakdown.responsibilities,
            (computeMatchScore cvText jdText).breakdown.preferred,
            (computeMatchScore cvText jdText).breakdown.other],
        0 < p.total → p.ratio = 1) ∧
    (computeMatchScore cvText jdText).score = 100 := by
  have hcvT : ∀ t ∈ tokenize jdText, t ∈ jsDedup (tokenize cvText) := fun t ht =>
    (mem_jsDedup _).mpr ((hset t).mpr ht)
  have hsub : ∀ t, memSections t (splitJDSections jdText) → t ∈ jsDedup (tokenize cvText) :=
    fun t ht => hcvT t (splitJDSections_tokens jdText t ht)
  have hreq : ∀ t ∈ tokenize (splitJDSections jdText).requirements,
      t ∈ jsDedup (tokenize cvText) := fun t ht => hsub t (Or.inl ht)
  have hresp : ∀ t ∈ tokenize (splitJDSections jdText).responsibilities,
      t ∈ jsDedup (tokenize cvText) := fun t ht => hsub t (Or.inr (Or.inl ht))
  have hpref : ∀ t ∈ tokenize (splitJDSections jdText).preferred,
      t ∈ jsDedup (tokenize cvText) := fun t ht => hsub t (Or.inr (Or.inr (Or.inl ht)))
  have hoth : ∀ t ∈ tokenize (splitJDSections jdText).other,
      t ∈ jsDedup (tokenize cvText) := fun t ht => hsub t (Or.inr (Or.inr (Or.inr ht)))
  by_cases hbd : activeParts (baseBreakdown (jsDedup (tokenize cvText))
      (splitJDSections jdText)) = []
  · have hfb : 0 < (coverageScore jdText (jsDedup (tokenize cvText))).total :=
      coverageScore_total_pos hne
    have hfr : (coverageScore jdText (jsDedup (tokenize cvText))).ratio = 1 :=
      coverageScore_ratio_one hcvT hfb
    have hbk : (computeMatchScore cvText jdText).breakdown =
        ⟨mkPart (coverageScore jdText (jsDedup (tokenize cvText))) 1,
         zeroPart, zeroPart, zeroPart⟩ := by
      rw [computeMatchScore_fallback cvText jdText hbd]
    have hsc : (computeMatchScore cvText jdText).score =
        jsRound ((coverageScore jdText (jsDedup (tokenize cvText))).ratio * 100) := by
      rw [computeMatchScore_fallback cvText jdText hbd]
    constructor
    · intro p hp hq
      rw [hbk] at hp
      simp only [List.mem_cons, List.not_mem_nil, or_false] at hp
      rcases hp with rfl | rfl | rfl | rfl
      · exact hfr
      all_goals exact absurd hq (by simp [zeroPart])
    · rw [hsc, hfr]
      norm_num [jsRound]
  · have hr1 : ∀ p ∈ activeParts (baseBreakdown (jsDedup (tokenize cvText))
        (splitJDSections jdText)), p.ratio = 1 := by
      intro p hp
      obtain ⟨hmem, htot⟩ := mem_activeParts.mp hp
      simp only [baseBreakdown, List.mem_cons, List.not_mem_nil, or_false] at hmem
      rcases hmem with rfl | rfl | rfl | rfl
      · exact coverageScore_ratio_one hreq htot
      · exact coverageScore_ratio_one hresp htot
      · exact coverageScore_ratio_one hpref htot
      · exact coverageScore_ratio_one hoth htot
    have hbk : (computeMatchScore cvText jdText).breakdown =
        baseBreakdown (jsDedup (tokenize cvText)) (splitJDSections jdText) := by
      rw [computeMatchScore_main cvText jdText hbd]
    have hsc : (computeMatchScore cvText jdText).score =
        jsRound (weightedFold (activeParts (baseBreakdown (jsDedup (tokenize cvText))
          (splitJDSections jdText))) * 100) := by
      rw [computeMatchScore_main cvText jdText hbd]
    constructor
    · intro p hp hq
      rw [hbk] at hp
      have hpact : p ∈ activeParts (baseBreakdown (jsDedup (tokenize cvText))
          (splitJDSections jdText)) := by
        apply mem_activeParts.mpr
        exact ⟨by simpa [baseBreakdown] using hp, hq⟩
      exact hr1 p hpact
    · rw [hsc, weightedFold_ones _ hr1 (activeParts_base_weight_pos _ _) hbd]
      norm_num [jsRound]

set_option maxHeartbeats 3200000 in
/-- Claim C6 witness: identical non-empty texts score 100. -/
theorem computeMatchScore_identical_tokens_witness :
    (computeMatchScore ("kubernetes terraform".data) ("kubernetes terraform".data)).score =
      100 :=
  (computeMatchScore_identical_tokens ("kubernetes terraform".data)
    ("kubernetes terraform".data) (fun _ => Iff.rfl) (by decide)).2

set_option maxHeartbeats 3200000 in
/-- Claim C6 counterexample: with the identical texts
"kubernetes terraform" (equal non-empty token sets) the `requirements`
part of the returned breakdown is inactive and keeps ratio 0, not 1.0;
and for two empty texts (equal token sets) the match score is 0, not
100. -/
theorem computeMatchScore_identical_tokens_cex :
    (∀ t, t ∈ tokenize ("kubernetes terraform".data) ↔
      t ∈ tokenize ("kubernetes terraform".data)) ∧
    (computeMatchScore ("kubernetes terraform".data)
        ("kubernetes terraform".data)).breakdown.requirements.ratio = 0 ∧
    (∀ t, t ∈ tokenize ([] : List Char) ↔ t ∈ tokenize ([] : List Char)) ∧
    (computeMatchScore ([] : List Char) ([] : List Char)).score = 0 := by
  refine ⟨fun _ => Iff.rfl, ?_, fun _ => Iff.rfl, ?_⟩
  · have hbd : activeParts (baseBreakdown (jsDedup (tokenize ("kubernetes terraform".data)))
        (splitJDSections ("kubernetes terraform".data))) ≠ [] := by decide
    have hbk : (computeMatchScore ("kubernetes terraform".data)
        ("kubernetes terraform".data)).breakdown =
        baseBreakdown (jsDedup (tokenize ("kubernetes terraform".data)))
          (splitJDSections ("kubernetes terraform".data)) := by
      rw [computeMatchScore_main _ _ hbd]
    rw [hbk]
    have hsec : (splitJDSections ("kubernetes terraform".data)).requirements = [] := by
      decide
    show (mkPart (coverageScore (splitJDSections ("kubernetes terraform".data)).requirements
      (jsDedup (tokenize ("kubernetes terraform".data)))) 0.6).ratio = 0
    rw [hsec]
    rfl
  · have hbd : activeParts (baseBreakdown (jsDedup (tokenize ([] : List Char)))
        (splitJDSections ([] : List Char))) = [] := by decide
    have hsc : (computeMatchScore ([] : List Char) ([] : List Char)).score =
        jsRound ((coverageScore ([] : List Char)
          (jsDedup (tokenize ([] : List Char)))).ratio * 100) := by
      rw [computeMatchScore_fallback _ _ hbd]
    rw [hsc, show (coverageScore ([] : List Char)
      (jsDedup (tokenize ([] : List Char)))).ratio = 0 from rfl]
    norm_num [jsRound]

/-- Claim C7 (amended): whenever at least one part of the returned
breakdown is active (total > 0), the active weights renormalized by their
sum add up to exactly 1. -/
theorem renormActiveWeightSum_spec (cvText jdText : List Char)
    (h : activeParts (computeMatchScore cvText jdText).breakdown ≠ []) :
    renormActiveWeightSum (computeMatchScore cvText jdText).breakdown = 1 := by
  by_cases hbd : activeParts (baseBreakdown (jsDedup (tokenize cvText))
      (splitJDSections jdText)) = []
  · have hbk : (computeMatchScore cvText jdText).breakdown =
        ⟨mkPart (coverageScore jdText (jsDedup (tokenize cvText))) 1,
         zeroPart, zeroPart, zeroPart⟩ := by
      rw [computeMatchScore_fallback cvText jdText hbd]
    rw [hbk] at h ⊢
    by_cases hfb : 0 < (coverageScore jdText (jsDedup (tokenize cvText))).total
    · have hac : activeParts (⟨mkPart (coverageScore jdText (jsDedup (tokenize cvText))) 1,
          zeroPart, zeroPart, zeroPart⟩ : ScoreBreakdown) =
          [mkPart (coverageScore jdText (jsDedup (tokenize cvText))) 1] := by
        simp [activeParts, zeroPart, mkPart, hfb]
      unfold renormActiveWeightSum
      rw [hac]
      norm_num [mkPart]
    · exfalso
      apply h
      simp only [activeParts, zeroPart, mkPart, List.filter]
      have h0 : (coverageScore jdText (jsDedup (tokenize cvText))).total = 0 := by omega
      simp [h0]
  · have hbk : (computeMatchScore cvText jdText).breakdown =
        baseBreakdown (jsDedup (tokenize cvText)) (splitJDSections jdText) := by
      rw [computeMatchScore_main cvText jdText hbd]
    rw [hbk]
    unfold renormActiveWeightSum
    exact renorm_eq_one _ (activeParts_base_weight_pos _ _) hbd

/-- Claim C7 witness: a JD with an active requirements section has
renormalized active weight sum 1. -/
theorem renormActiveWeightSum_spec_witness :
    renormActiveWeightSum (computeMatchScore ("python sql".data)
        ("Requirements\npython sql aws".data)).breakdown = 1 := by
  apply renormActiveWeightSum_spec
  have hbd : activeParts (baseBreakdown (jsDedup (tokenize ("python sql".data)))
      (splitJDSections ("Requirements\npython sql aws".data))) ≠ [] := by decide
  have hbk : (computeMatchScore ("python sql".data)
      ("Requirements\npython sql aws".data)).breakdown =
      baseBreakdown (jsDedup (tokenize ("python sql".data)))
        (splitJDSections ("Requirements\npython sql aws".data)) := by
    rw [computeMatchScore_main _ _ hbd]
  rw [hbk]
  exact hbd

/-- Claim C7 counterexample: the JD "skills" has a heading-matched line,
but its only token is a stopword, so no part of the returned breakdown is
active and the renormalized active weight sum is 0, not 1. -/
theorem renormActiveWeightSum_heading_cex :
    testPat reqPhrases (trimChars ("skills".data)) = true ∧
    activeParts (computeMatchScore ("python".data) ("skills".data)).breakdown = [] ∧
    renormActiveWeightSum (computeMatchScore ("python".data) ("skills".data)).breakdown = 0 ∧
    renormActiveWeightSum (computeMatchScore ("python".data) ("skills".data)).breakdown ≠ 1 := by
  have hac : activeParts (computeMatchScore ("python".data) ("skills".data)).breakdown = [] := by
    decide
  have hzero : renormActiveWeightSum
      (computeMatchScore ("python".data) ("skills".data)).breakdown = 0 := by
    unfold renormActiveWeightSum
    rw [hac]
    rfl
  refine ⟨by decide, hac, hzero, ?_⟩
  rw [hzero]
  norm_num

set_option maxHeartbeats 3200000 in
/-- Claim C1 witness: the spec's worked example — resume tokens
{python, sql} against a requirements-only JD section {python, sql, aws}
(ratio 2/3, sole active section) scores round(100 × 2/3 × 1) = 67. -/
theorem computeMatchScore_spec_witness :
    (computeMatchScore ("python sql".data) ("Requirements\npython sql aws".data)).score =
      specMatchScore ("python sql".data) ("Requirements\npython sql aws".data) ∧
    (computeMatchScore ("python sql".data) ("Requirements\npython sql aws".data)).score =
      67 := by
  refine ⟨(computeMatchScore_spec ("python sql".data)
    ("Requirements\npython sql aws".data)).1, ?_⟩
  have hbd : activeParts (baseBreakdown (jsDedup (tokenize ("python sql".data)))
      (splitJDSections ("Requirements\npython sql aws".data))) ≠ [] := by decide
  rw [computeMatchScore_main _ _ hbd]
  have hsec : splitJDSections ("Requirements\npython sql aws".data) =
      ⟨" python sql aws".data, [], [], []⟩ := by decide
  have hcvT : jsDedup (tokenize ("python sql".data)) = ["python".data, "sql".data] := by
    decide
  have hcov : coverageScore (" python sql aws".data) (["python".data, "sql".data]) =
      ⟨2, 3, (2 : ℚ)/3⟩ := by
    have htoks : jsDedup (tokenize (" python sql aws".data)) =
        ["python".data, "sql".data, "aws".data] := by decide
    simp only [coverageScore, htoks]
    rw [if_neg (by decide),
      show (["python".data, "sql".data, "aws".data].foldl
        (fun count token =>
          if token ∈ ["python".data, "sql".data] then count + 1 else count) 0) = 2 from
        by decide]
    norm_num
  have hact : activeParts (baseBreakdown (jsDedup (tokenize ("python sql".data)))
      (splitJDSections ("Requirements\npython sql aws".data))) =
      [⟨2, 3, (2 : ℚ)/3, 0.6⟩] := by
    rw [hsec, hcvT]
    simp only [baseBreakdown, mkPart, hcov,
      show coverageScore ([] : List Char) (["python".data, "sql".data]) =
        (⟨0, 0, 0⟩ : CoverageResult) from rfl]
    simp [activeParts]
  rw [hact]
  norm_num [weightedFold, jsRound]

end ResumeAnalyser
